import Mathlib

/-!
Verification of the docml-to-PortableDocument converter
(`scripts/docml2json/docml2json.py`).

The development shallowly embeds the converter: every definition below is a
direct translation of a function of the source file (regular expressions are
translated to explicit scanners with the same backtracking semantics; Python
character classes `\w`, `\s`, `\d` are modelled over ASCII, which is the
alphabet the format uses).  The only nondeterministic input of the program, the wall-clock timestamp, is
passed as an explicit parameter, and the unbounded `while` loop of
`parse_content` is given an explicit fuel counter, with `none` denoting a run
that did not finish within the fuel.
-/

namespace Docml

/-! ## Python string primitives (ASCII model) -/

/-- Python `\s` over ASCII: space, tab, newline, carriage return, form feed,
vertical tab. -/
def isPySpace (c : Char) : Bool :=
  c = ' ' || c = '\t' || c = '\n' || c = '\r' || c = '\x0c' || c = '\x0b'

/-- Python `\w` over ASCII: letters, digits, underscore. -/
def isWordChar (c : Char) : Bool :=
  ('a' ≤ c && c ≤ 'z') || ('A' ≤ c && c ≤ 'Z') || ('0' ≤ c && c ≤ '9') || c = '_'

/-- Python `\d` over ASCII. -/
def isDigitChar (c : Char) : Bool :=
  '0' ≤ c && c ≤ '9'

/-- `str.strip()` on a character list. -/
def pyStripChars (l : List Char) : List Char :=
  ((l.dropWhile isPySpace).reverse.dropWhile isPySpace).reverse

/-- `str.strip()`. -/
def pyStrip (s : String) : String :=
  (pyStripChars s.toList).asString

/-- Strip only trailing whitespace (used to model a trailing `\s*$`). -/
def dropTrailingWs (l : List Char) : List Char :=
  (l.reverse.dropWhile isPySpace).reverse

/-- `str.upper()` over ASCII. -/
def pyUpper (s : String) : String :=
  (s.toList.map Char.toUpper).asString

/-- Digit-run parser: parses `digits (("_" digits)*)` as Python's `int`
accepts after the sign, returning the value. -/
def pyIntDigits (l : List Char) : Option Nat :=
  let rec go (cs : List Char) (acc : Nat) (lastWasDigit : Bool) : Option Nat :=
    match cs with
    | [] => if lastWasDigit then some acc else none
    | c :: rest =>
      if isDigitChar c then
        go rest (acc * 10 + (c.toNat - '0'.toNat)) true
      else if c = '_' && lastWasDigit then
        match rest with
        | [] => none
        | d :: _ => if isDigitChar d then go rest acc false else none
      else none
  match l with
  | [] => none
  | c :: _ => if isDigitChar c then go l 0 false else none

/-- Python `int(str)`: optional surrounding whitespace, optional sign,
digits possibly grouped by single underscores.  `none` models the
`ValueError` that `int` raises on any other input. -/
def pyInt (s : String) : Option Int :=
  let l := pyStripChars s.toList
  match l with
  | '+' :: rest => (pyIntDigits rest).map (Int.ofNat ·)
  | '-' :: rest => (pyIntDigits rest).map (fun n => -(Int.ofNat n))
  | _ => (pyIntDigits l).map (Int.ofNat ·)

/-! ## Python dict (insertion ordered, assignment overwrites) -/

/-- `d[k] = v` on an association list. -/
def dictSet (d : List (String × α)) (k : String) (v : α) : List (String × α) :=
  match d with
  | [] => [(k, v)]
  | (k', v') :: rest =>
    if k' = k then (k', v) :: rest else (k', v') :: dictSet rest k v

/-- `k in d`. -/
def dictContains (d : List (String × α)) (k : String) : Bool :=
  match d with
  | [] => false
  | (k', _) :: rest => k' = k || dictContains rest k

/-- `d.get(k)`. -/
def dictFind (d : List (String × α)) (k : String) : Option α :=
  match d with
  | [] => none
  | (k', v) :: rest => if k' = k then some v else dictFind rest k

/-- `d.get(k, default)`. -/
def dictGetD (d : List (String × α)) (k : String) (dflt : α) : α :=
  (dictFind d k).getD dflt

/-! ## `make_id`: UUID5 over `uuid.NAMESPACE_URL`

`make_id(seed) = str(uuid.uuid5(uuid.NAMESPACE_URL, seed))`, i.e. the SHA-1
digest of the namespace bytes followed by the UTF-8 encoding of the seed,
truncated to 16 bytes with the version/variant bits patched in, rendered as
lowercase hex with dashes. -/

/-- UTF-8 encoding of one code point. -/
def utf8Char (c : Char) : List Nat :=
  let n := c.toNat
  if n < 128 then [n]
  else if n < 2048 then [192 ||| (n >>> 6), 128 ||| (n &&& 63)]
  else if n < 65536 then
    [224 ||| (n >>> 12), 128 ||| ((n >>> 6) &&& 63), 128 ||| (n &&& 63)]
  else
    [240 ||| (n >>> 18), 128 ||| ((n >>> 12) &&& 63), 128 ||| ((n >>> 6) &&& 63),
     128 ||| (n &&& 63)]

/-- UTF-8 encoding of a string as a byte list. -/
def utf8Encode (s : String) : List Nat :=
  s.toList.flatMap utf8Char

/-- The 16 bytes of `uuid.NAMESPACE_URL` (6ba7b811-9dad-11d1-80b4-00c04fd430c8). -/
def namespaceUrlBytes : List Nat :=
  [0x6b, 0xa7, 0xb8, 0x11, 0x9d, 0xad, 0x11, 0xd1, 0x80, 0xb4, 0x00, 0xc0,
   0x4f, 0xd4, 0x30, 0xc8]

/-- 32-bit left rotation. -/
def rotl32 (n x : Nat) : Nat :=
  ((x <<< n) ||| (x >>> (32 - n))) % 4294967296

/-- Split a byte list into successive 64-byte chunks (the input length is a
multiple of 64 after padding). -/
def chunksGo : List Nat → List Nat → List (List Nat)
  | [], cur => if cur.isEmpty then [] else [cur]
  | b :: bs, cur =>
    if cur.length = 63 then (cur ++ [b]) :: chunksGo bs []
    else chunksGo bs (cur ++ [b])

def toChunks (l : List Nat) : List (List Nat) := chunksGo l []

/-- Big-endian bytes of `n`, `k` bytes wide. -/
def beBytes : Nat → Nat → List Nat
  | 0, _ => []
  | k + 1, n => beBytes k (n / 256) ++ [n % 256]

/-- SHA-1 message padding. -/
def sha1Pad (msg : List Nat) : List Nat :=
  let r := (msg.length + 1) % 64
  let k := (120 - r) % 64
  msg ++ [128] ++ List.replicate k 0 ++ beBytes 8 (msg.length * 8)

/-- Group 4 bytes (big-endian) into 32-bit words. -/
def bytesToWords : List Nat → List Nat
  | b0 :: b1 :: b2 :: b3 :: rest =>
    (((b0 * 256 + b1) * 256 + b2) * 256 + b3) :: bytesToWords rest
  | _ => []

/-- Extend the 16 message words to 80; `rev` keeps the words produced so far,
newest first. -/
def extendWords (rev : List Nat) : Nat → List Nat
  | 0 => rev
  | k + 1 =>
    let w := rotl32 1 (rev.getD 2 0 ^^^ rev.getD 7 0 ^^^ rev.getD 13 0 ^^^ rev.getD 15 0)
    extendWords (w :: rev) k

/-- The 80 compression rounds. -/
def sha1Rounds : List Nat → Nat → Nat × Nat × Nat × Nat × Nat → Nat × Nat × Nat × Nat × Nat
  | [], _, st => st
  | w :: ws, i, (a, b, c, d, e) =>
    let fk : Nat × Nat :=
      if i < 20 then ((b &&& c) ||| ((b ^^^ 4294967295) &&& d), 0x5A827999)
      else if i < 40 then (b ^^^ c ^^^ d, 0x6ED9EBA1)
      else if i < 60 then ((b &&& c) ||| (b &&& d) ||| (c &&& d), 0x8F1BBCDC)
      else (b ^^^ c ^^^ d, 0xCA62C1D6)
    let temp := (rotl32 5 a + fk.1 + e + fk.2 + w) % 4294967296
    sha1Rounds ws (i + 1) (temp, a, rotl32 30 b, c, d)

/-- Process one 64-byte chunk. -/
def sha1Chunk (hs : Nat × Nat × Nat × Nat × Nat) (chunk : List Nat) :
    Nat × Nat × Nat × Nat × Nat :=
  let (h0, h1, h2, h3, h4) := hs
  let ws := (extendWords (bytesToWords chunk).reverse 64).reverse
  let (a, b, c, d, e) := sha1Rounds ws 0 (h0, h1, h2, h3, h4)
  ((h0 + a) % 4294967296, (h1 + b) % 4294967296, (h2 + c) % 4294967296,
   (h3 + d) % 4294967296, (h4 + e) % 4294967296)

/-- SHA-1 digest (20 bytes) of a byte list. -/
def sha1 (msg : List Nat) : List Nat :=
  let chunks := toChunks (sha1Pad msg)
  let (h0, h1, h2, h3, h4) :=
    chunks.foldl sha1Chunk (0x67452301, 0xEFCDAB89, 0x98BADCFE, 0x10325476, 0xC3D2E1F0)
  beBytes 4 h0 ++ beBytes 4 h1 ++ beBytes 4 h2 ++ beBytes 4 h3 ++ beBytes 4 h4

/-- Lowercase hex rendering of one byte. -/
def byteHex (b : Nat) : List Char :=
  let digits := "0123456789abcdef".toList
  [digits.getD (b / 16) '0', digits.getD (b % 16) '0']

/-- Format 16 bytes as a UUID string (8-4-4-4-12 lowercase hex). -/
def uuidFormat (bytes : List Nat) : String :=
  let hx := fun (l : List Nat) => (l.flatMap byteHex).asString
  hx (bytes.take 4) ++ "-" ++ hx ((bytes.drop 4).take 2) ++ "-" ++
    hx ((bytes.drop 6).take 2) ++ "-" ++ hx ((bytes.drop 8).take 2) ++ "-" ++
    hx (bytes.drop 10)

/-- `make_id(seed)`: `str(uuid.uuid5(uuid.NAMESPACE_URL, seed))`. -/
def makeId (seed : String) : String :=
  let digest := (sha1 (namespaceUrlBytes ++ utf8Encode seed)).take 16
  let patched := digest.mapIdx (fun i b =>
    if i = 6 then (b &&& 0x0F) ||| 0x50
    else if i = 8 then (b &&& 0x3F) ||| 0x80
    else b)
  uuidFormat patched

/-! ## Generic kernel-reducible string utilities -/

/-- `text.split('\n')` (Python splits on the literal character only). -/
def splitNLGo : List Char → List Char → List String
  | [], cur => [cur.reverse.asString]
  | c :: cs, cur =>
    if c = '\n' then cur.reverse.asString :: splitNLGo cs [] else splitNLGo cs (c :: cur)

/-- `text.split('\n')`. -/
def pySplitNL (s : String) : List String := splitNLGo s.toList []

/-- `s.startswith(pre)`. -/
def strStartsWith (s pre : String) : Bool := pre.toList.isPrefixOf s.toList

/-- `s[n:]`. -/
def strDrop (s : String) (n : Nat) : String := (s.toList.drop n).asString

/-- Numeric value of a digit run. -/
def digitsVal (l : List Char) : Nat :=
  l.foldl (fun a c => a * 10 + (c.toNat - 48)) 0

/-- Smallest offset `o` such that `ok` succeeds on the `o`-th tail of the
list, together with the produced value (used for lazy `(.+?)` scans). -/
def scanMinOffset (ok : List Char → Option α) : List Char → Option (Nat × α)
  | [] =>
    match ok [] with
    | some a => some (0, a)
    | none => none
  | c :: t =>
    match ok (c :: t) with
    | some a => some (0, a)
    | none => (scanMinOffset ok t).map (fun p => (p.1 + 1, p.2))

/-- Model of the regex fragment `\s+(.+)$` applied to `cs` (with the
backtracking of the greedy `\s+` against the non-empty `.+`): returns the
text captured by `(.+)`. -/
def wsPlusRest (cs : List Char) : Option (List Char) :=
  match cs with
  | [] => none
  | c :: _ =>
    if !isPySpace c then none
    else
      let w := cs.takeWhile isPySpace
      let rest := cs.drop w.length
      if !rest.isEmpty then some rest
      else if cs.length ≥ 2 then some (cs.drop (cs.length - 1))
      else none

/-! ## Section splitting (`split_sections`) -/

/-- Marker-line test: `^---(\w+)---\s*$`, returning the section name. -/
def isMarker (line : String) : Option String :=
  let cs := line.toList
  if ['-', '-', '-'].isPrefixOf cs then
    let rest := cs.drop 3
    let w := rest.takeWhile isWordChar
    if w.isEmpty then none
    else
      let after := rest.drop w.length
      if ['-', '-', '-'].isPrefixOf after ∧ (after.drop 3).all isPySpace then
        some w.asString
      else none
  else none

/-- Loop state of `split_sections`. -/
structure SplitState where
  sections : List (String × List String)
  current : Option String
  currentLines : List String
  inContent : Bool

/-- Initial state of the `split_sections` loop. -/
def splitInit : SplitState := ⟨[], none, [], false⟩

/-- One iteration of the `split_sections` loop. -/
def splitStep (st : SplitState) (line : String) : SplitState :=
  if st.inContent then { st with currentLines := st.currentLines ++ [line] }
  else
    match isMarker line with
    | some name =>
      let secs :=
        match st.current with
        | some c => dictSet st.sections c st.currentLines
        | none => st.sections
      ⟨secs, some name, [], name = "content"⟩
    | none =>
      match st.current with
      | some _ => { st with currentLines := st.currentLines ++ [line] }
      | none => st

/-- Run the `split_sections` loop over the lines. -/
def splitRun (lines : List String) (st : SplitState) : SplitState :=
  lines.foldl splitStep st

/-- Store the final open section, if any. -/
def splitFinish (st : SplitState) : List (String × List String) :=
  match st.current with
  | some c => dictSet st.sections c st.currentLines
  | none => st.sections

/-- `split_sections` on a line list. -/
def splitSectionsL (lines : List String) : List (String × List String) :=
  splitFinish (splitRun lines splitInit)

/-- `split_sections(text)`. -/
def splitSections (text : String) : List (String × List String) :=
  splitSectionsL (pySplitNL text)

/-! ## Meta parsing (`parse_meta`) -/

/-- The `PAGE_SIZES` table. -/
def pageSizes : List (String × (Nat × Nat)) :=
  [("LETTER", (816, 1056)), ("LEGAL", (816, 1344)), ("A4", (794, 1123))]

/-- The key-value loop of `parse_meta` (`line.partition(':')` splits at the
first colon; a line without a colon yields the whole line as key and `''` as
value). -/
def metaKV (lines : List String) : List (String × String) :=
  lines.foldl
    (fun kv line =>
      let l := pyStripChars line.toList
      if l.isEmpty then kv
      else
        let k := l.takeWhile (· ≠ ':')
        if k.length = l.length then
          dictSet kv (pyStripChars k).asString ""
        else
          dictSet kv (pyStripChars k).asString (pyStripChars (l.drop (k.length + 1))).asString)
    []

structure Margins where
  top : Int
  bottom : Int
  left : Int
  right : Int
deriving Repr, DecidableEq

structure MetaData where
  title : String
  description : String
  language : String
deriving Repr, DecidableEq

structure PageConfig where
  formatId : String
  width : Nat
  height : Nat
  margins : Margins
deriving Repr, DecidableEq

structure MetaInfo where
  meta : MetaData
  pageConfig : PageConfig
deriving Repr, DecidableEq

/-- `parse_meta`; `none` models the `ValueError` the call `int(kv.get('margins',
'72'))` raises on a non-integer value. -/
def parseMeta (lines : List String) : Option MetaInfo :=
  let kv := metaKV lines
  let pageId := pyUpper (dictGetD kv "page" "LETTER")
  let dims := dictGetD pageSizes pageId (816, 1056)
  match pyInt (dictGetD kv "margins" "72") with
  | none => none
  | some m =>
    some ⟨⟨dictGetD kv "title" "", dictGetD kv "description" "", dictGetD kv "language" "es"⟩,
          ⟨pageId, dims.1, dims.2, ⟨m, m, m, m⟩⟩⟩

/-! ## Roles parsing (`parse_roles`) -/

structure TextValue where
  typ : String
  value : String
deriving Repr, DecidableEq

structure Role where
  id : String
  label : String
  name : TextValue
  email : TextValue
  order : Nat
deriving Repr, DecidableEq

/-- Model of the suffix regex `\s*\[order\s*:\s*(\d+)\]\s*$`, returning the
captured order number. -/
def roleOrderSuffix (cs : List Char) : Option Nat :=
  let a := cs.dropWhile isPySpace
  if "[order".toList.isPrefixOf a then
    let b := (a.drop 6).dropWhile isPySpace
    match b with
    | ':' :: b2 =>
      let c := b2.dropWhile isPySpace
      let ds := c.takeWhile isDigitChar
      if ds.isEmpty then none
      else
        match c.drop ds.length with
        | ']' :: rest => if rest.all isPySpace then some (digitsVal ds) else none
        | _ => none
    | _ => none
  else none

/-- Search for the lazy `(.+?)` split of the role regex: the whitespace run of
`\s*` is tried longest first (`w` counts down), and for each `w` the shortest
non-empty capture whose remainder matches the `[order ...]` suffix wins. -/
def roleLabelScan (rest2 : List Char) : Nat → Option (List Char × Nat)
  | 0 =>
    (scanMinOffset roleOrderSuffix (rest2.drop 1)).map
      (fun p => ((rest2.take (p.1 + 1)), p.2))
  | w + 1 =>
    match scanMinOffset roleOrderSuffix (rest2.drop (w + 2)) with
    | some p => some ((rest2.drop (w + 1)).take (p.1 + 1), p.2)
    | none => roleLabelScan rest2 w

/-- Match one (already stripped) role line against
`^(\w+)\s*:\s*(.+?)\s*\[order\s*:\s*(\d+)\]\s*$`, returning
(reference, raw label capture, order). -/
def matchRoleLine (s : String) : Option (String × String × Nat) :=
  let cs := s.toList
  let ref := cs.takeWhile isWordChar
  if ref.isEmpty then none
  else
    match (cs.drop ref.length).dropWhile isPySpace with
    | ':' :: rest2 =>
      let wmax := (rest2.takeWhile isPySpace).length
      (roleLabelScan rest2 wmax).map (fun p => (ref.asString, p.1.asString, p.2))
    | _ => none

/-- `parse_roles`: returns the role list and the reference lookup. -/
def parseRoles (lines : List String) : List Role × List (String × Role) :=
  lines.foldl
    (fun acc line =>
      let l := pyStrip line
      if l = "" then acc
      else
        match matchRoleLine l with
        | none => acc
        | some (ref, rawLabel, ord) =>
          let role : Role :=
            ⟨makeId ref, pyStrip rawLabel, ⟨"text", ""⟩, ⟨"text", ""⟩, ord⟩
          (acc.1 ++ [role], dictSet acc.2 ref role))
    ([], [])

/-! ## Workflow parsing (`parse_workflow`) -/

structure PrevRolesConfig where
  mode : String
  selectedRoleIds : List String
deriving Repr, DecidableEq

structure TriggerCfg where
  enabled : Bool
deriving Repr, DecidableEq

structure TriggerPrev where
  enabled : Bool
  previousRolesConfig : PrevRolesConfig
deriving Repr, DecidableEq

structure GlobalTriggers where
  onDocumentCreated : TriggerCfg
  onPreviousRolesSigned : TriggerPrev
  onTurnToSign : TriggerCfg
  onAllSignaturesComplete : TriggerCfg
deriving Repr, DecidableEq

structure Notifications where
  scope : String
  globalTriggers : GlobalTriggers
  roleConfigs : List String
deriving Repr, DecidableEq

structure Workflow where
  orderMode : String
  notifications : Notifications
deriving Repr, DecidableEq

/-- `parse_workflow`. -/
def parseWorkflow (lines : List String) : Workflow :=
  let mode := lines.foldl
    (fun m line =>
      let l := pyStrip line
      if strStartsWith l "mode:" then pyStrip (strDrop l 5) else m)
    "sequential"
  ⟨mode, ⟨"global", ⟨⟨false⟩, ⟨false, ⟨"auto", []⟩⟩, ⟨true⟩, ⟨false⟩⟩, []⟩⟩

/-! ## Node model (ProseMirror-style dictionaries as tagged variants)

A dictionary key that the code emits only conditionally (`marks`, `content`,
`subtitle`) is modelled as an `Option`, with `none` for the absent key. -/

structure InjAttrs where
  typ : String
  label : String
  variableId : String
  format : Option String
  required : Bool
  prefixVal : Option String
  suffixVal : Option String
  showLabelIfEmpty : Bool
  defaultValue : Option String
  width : Option String
  isRoleVariable : Bool
  roleId : Option String
  roleLabel : Option String
  propertyKey : Option String
deriving Repr, DecidableEq

structure OptionEntry where
  id : String
  label : String
deriving Repr, DecidableEq

structure CheckboxAttrs where
  id : String
  fieldType : String
  roleId : String
  label : String
  required : Bool
  options : List OptionEntry
  placeholder : String
  maxLength : Nat
  optionsLayout : String
deriving Repr, DecidableEq

structure SigItem where
  id : String
  roleId : String
  label : String
  imageOpacity : Nat
  subtitle : Option String
deriving Repr, DecidableEq

structure SigAttrs where
  count : Nat
  layout : String
  lineWidth : String
  signatures : List SigItem
deriving Repr, DecidableEq

structure CellAttrs where
  colspan : Nat
  rowspan : Nat
  colwidth : Option String
  background : Option String
deriving Repr, DecidableEq

structure TableAttrs where
  headerFontFamily : Option String
  headerFontSize : Option String
  headerFontWeight : Option String
  headerTextColor : Option String
  headerTextAlign : Option String
  headerBackground : Option String
  bodyFontFamily : Option String
  bodyFontSize : Option String
  bodyFontWeight : Option String
  bodyTextColor : Option String
  bodyTextAlign : Option String
deriving Repr, DecidableEq

inductive Node where
  | text (s : String) (marks : Option (List String))
  | injector (attrs : InjAttrs)
  | paragraph (textAlign : Option String) (content : Option (List Node))
  | heading (level : Nat) (textAlign : Option String) (content : Option (List Node))
  | horizontalRule
  | pageBreak
  | interactiveField (attrs : CheckboxAttrs)
  | signature (attrs : SigAttrs)
  | table (attrs : TableAttrs) (content : List Node)
  | tableRow (content : List Node)
  | tableHeader (content : Option (List Node))
  | tableCell (attrs : CellAttrs) (content : Option (List Node))
  | bulletList (content : List Node)
  | orderedList (content : List Node)
  | listItem (content : List Node)
deriving Repr

/-! ## Inline parsing (`parse_inline`) -/

/-- `_make_injector_node`. -/
def mkInjectorNode (varId label : String) (typ : String) : Node :=
  .injector ⟨typ, label, varId, none, false, none, none, false, none, none, false,
             none, none, none⟩

/-- The scanner behind `_INLINE_TOKEN_RE.split`: walks the line left to right
trying, at each position, `**`, then a standalone `*` (with its look-behind and
look-ahead), then `__`, then a bracket group `\[[^\]]+\]`; unmatched characters
accumulate into the gap pieces that `re.split` returns between matches.
`prev` is the character at the previous position (for the look-behind); the
fuel is an upper bound on the number of steps, each of which consumes at
least one character. -/
def inlineSplitGo : Nat → Option Char → List Char → List Char → List String
  | _, _, gap, [] => [gap.reverse.asString]
  | 0, _, gap, cs => [(gap.reverse ++ cs).asString]
  | f + 1, _, gap, '*' :: '*' :: rest =>
    gap.reverse.asString :: "**" :: inlineSplitGo f (some '*') [] rest
  | f + 1, prev, gap, '*' :: rest =>
    if prev = some '*' then inlineSplitGo f (some '*') ('*' :: gap) rest
    else gap.reverse.asString :: "*" :: inlineSplitGo f (some '*') [] rest
  | f + 1, _, gap, '_' :: '_' :: rest =>
    gap.reverse.asString :: "__" :: inlineSplitGo f (some '_') [] rest
  | f + 1, _, gap, '[' :: rest =>
    let inner := rest.takeWhile (· ≠ ']')
    if inner.isEmpty then inlineSplitGo f (some '[') ('[' :: gap) rest
    else
      match rest.drop inner.length with
      | ']' :: rest2 =>
        gap.reverse.asString :: ('[' :: (inner ++ [']'])).asString ::
          inlineSplitGo f (some ']') [] rest2
      | _ => inlineSplitGo f (some '[') ('[' :: gap) rest
  | f + 1, _, gap, c :: rest => inlineSplitGo f (some c) (c :: gap) rest

/-- `_INLINE_TOKEN_RE.split(raw_text)`. -/
def inlineSplit (s : String) : List String :=
  inlineSplitGo (s.toList.length + 1) none [] s.toList

/-- Split a character list at every `'|'`. -/
def splitOnPipe : List Char → List (List Char)
  | [] => [[]]
  | '|' :: rest => [] :: splitOnPipe rest
  | c :: rest =>
    match splitOnPipe rest with
    | p :: ps => (c :: p) :: ps
    | [] => [[c]]

/-- `_INJECTOR_RE.match(tok)`: `^\[([^|\]]+)\|([^|\]]+?)(?:\|([^|\]]+))?\]$`,
returning the three captures. -/
def injectorMatch (tok : String) : Option (List Char × List Char × Option (List Char)) :=
  match tok.toList with
  | '[' :: rest =>
    if rest.getLast? = some ']' then
      let inner := rest.dropLast
      let okPart := fun (p : List Char) => !p.isEmpty && p.all (· ≠ ']')
      match splitOnPipe inner with
      | [a, b] => if okPart a && okPart b then some (a, b, none) else none
      | [a, b, c] =>
        if okPart a && okPart b && okPart c then some (a, b, some c) else none
      | _ => none
    else none
  | _ => none

/-- The mark set of a text run, in the fixed bold/italic/underline order. -/
def mkMarks (bold italic underline : Bool) : List String :=
  (if bold then ["bold"] else []) ++ (if italic then ["italic"] else []) ++
    (if underline then ["underline"] else [])

/-- The token loop of `parse_inline`: the toggle state starts all-false and
each piece is either skipped (empty), a toggle, an injector, or a text run
tagged with the active marks (the `marks` key is omitted when empty). -/
def inlineFold : List String → Bool → Bool → Bool → List Node
  | [], _, _, _ => []
  | tok :: rest, b, i, u =>
    if tok = "" then inlineFold rest b i u
    else if tok = "**" then inlineFold rest (!b) i u
    else if tok = "*" then inlineFold rest b (!i) u
    else if tok = "__" then inlineFold rest b i (!u)
    else
      match injectorMatch tok with
      | some (g1, g2, g3) =>
        mkInjectorNode (pyStripChars g1).asString (pyStripChars g2).asString
          (match g3 with
           | some g => (pyStripChars g).asString
           | none => "TEXT") :: inlineFold rest b i u
      | none =>
        let marks := mkMarks b i u
        Node.text tok (if marks.isEmpty then none else some marks) :: inlineFold rest b i u

/-- `parse_inline(raw_text)`. -/
def parseInline (raw : String) : List Node :=
  if raw = "" then [] else inlineFold (inlineSplit raw) false false false

/-! ## Block-level helpers -/

/-- Wrap an inline list as the optional `content` value (`if nodes:`). -/
def optContent (nodes : List Node) : Option (List Node) :=
  if nodes.isEmpty then none else some nodes

/-- `_make_paragraph`. -/
def mkParagraph (text : String) (align : Option String) : Node :=
  .paragraph align (optContent (parseInline text))

/-- `_make_heading`. -/
def mkHeading (text : String) (level : Nat) (align : Option String) : Node :=
  .heading level align (optContent (parseInline text))

/-- `_make_list_item`. -/
def mkListItem (text : String) : Node :=
  .listItem [mkParagraph text none]

/-- The loop of `_split_table_cells`: `cells`/`current`/`depth` mirror the
local variables; the bracket depth is clamped at zero (`Nat` subtraction). -/
def splitCellsLoop : List Char → List String → List Char → Nat → List String
  | [], cells, current, _ =>
    let tail := pyStripChars current
    if tail.isEmpty then cells else cells ++ [tail.asString]
  | c :: cs, cells, current, depth =>
    if c = '[' then splitCellsLoop cs cells (current ++ [c]) (depth + 1)
    else if c = ']' then splitCellsLoop cs cells (current ++ [c]) (depth - 1)
    else if c = '|' && depth = 0 then
      splitCellsLoop cs (cells ++ [(pyStripChars current).asString]) [] depth
    else splitCellsLoop cs cells (current ++ [c]) depth

/-- `_split_table_cells(row_text)`. -/
def splitTableCells (s : String) : List String :=
  splitCellsLoop s.toList [] [] 0

/-- `_TABLE_ROW_RE.match(s)`: `^\|(.+)\|\s*$`, returning the greedy capture
(the text between the first pipe and the last pipe that is followed only by
whitespace). -/
def matchTableRow (s : String) : Option String :=
  match dropTrailingWs s.toList with
  | '|' :: rest =>
    if rest.length ≥ 2 ∧ rest.getLast? = some '|' then some rest.dropLast.asString
    else none
  | _ => none

/-- `_make_table_header_cell`. -/
def mkTableHeaderCell (text : String) : Node :=
  .tableHeader (optContent (parseInline text))

/-- `_make_table_data_cell`. -/
def mkTableDataCell (text : String) : Node :=
  .tableCell ⟨1, 1, none, none⟩ (optContent (parseInline text))

/-- The fixed table attribute scaffold. -/
def tableAttrsConst : TableAttrs :=
  ⟨none, none, none, none, none, none, none, none, none, none, none⟩

/-- The row-collection loop of `_parse_table_block`: inner texts of the
consecutive lines whose `strip()` matches the row regex. -/
def collectTableRows : List String → List String
  | [] => []
  | l :: rest =>
    match matchTableRow (pyStrip l) with
    | some inner => inner :: collectTableRows rest
    | none => []

/-- Assemble the table node of `_parse_table_block` (first row → header
cells, remaining rows → data cells). -/
def mkTableNode (headerRow : String) (dataRows : List String) : Node :=
  .table tableAttrsConst
    (Node.tableRow ((splitTableCells headerRow).map mkTableHeaderCell) ::
      dataRows.map (fun r => Node.tableRow ((splitTableCells r).map mkTableDataCell)))

/-! ## Content parsing (`parse_content`) -/

/-- `_OPTION_RE` (`^\s+\|\s+`) combined with the `re.sub` + `strip()` the two
consumers apply: returns the option text when the line matches. -/
def matchOptionLine (line : String) : Option String :=
  let cs := line.toList
  let w1 := cs.takeWhile isPySpace
  if w1.isEmpty then none
  else
    match cs.drop w1.length with
    | '|' :: rest =>
      let w2 := rest.takeWhile isPySpace
      if w2.isEmpty then none
      else some (pyStripChars (rest.drop w2.length)).asString
    | _ => none

/-- `_HEADING_RE.match(s)`: `^(#{1,3})\s+(.+)$`. -/
def matchHeading (s : String) : Option (Nat × String) :=
  let hs := s.toList.takeWhile (· = '#')
  if 1 ≤ hs.length ∧ hs.length ≤ 3 then
    (wsPlusRest (s.toList.drop hs.length)).map (fun t => (hs.length, t.asString))
  else none

/-- The closing step of the checkbox regex: a literal `)` followed by
`\s+(.+)$` (the label capture). -/
def ckbClose (cs : List Char) : Option String :=
  match cs with
  | ')' :: tail => (wsPlusRest tail).map (·.asString)
  | _ => none

/-- Backtracking of `,\s*(.+?)\)` in `_CHECKBOX_RE`: the whitespace run of
`\s*` is tried longest first, the parameter capture shortest first. -/
def ckbTryW (v : List Char) : Nat → Option String
  | 0 => (scanMinOffset ckbClose (v.drop 1)).map (·.2)
  | w + 1 =>
    match scanMinOffset ckbClose (v.drop (w + 2)) with
    | some p => some p.2
    | none => ckbTryW v w

/-- `_CHECKBOX_RE.match(s)`: `^@checkbox\((\w+)(?:,\s*(.+?))?\)\s+(.+)$`,
returning (role reference, label). -/
def matchCheckbox (s : String) : Option (String × String) :=
  let cs := s.toList
  if "@checkbox(".toList.isPrefixOf cs then
    let t := cs.drop 10
    let ref := t.takeWhile isWordChar
    if ref.isEmpty then none
    else
      match t.drop ref.length with
      | ')' :: after => (wsPlusRest after).map (fun l => (ref.asString, l.asString))
      | ',' :: v =>
        let wmax := (v.takeWhile isPySpace).length
        (ckbTryW v wmax).map (fun l => (ref.asString, l))
      | _ => none
  else none

/-- `_SIGNATURE_RE.match(s)`: `^@signature\(([^,]+),\s*(\w+)\)\s*$`, returning
(stripped layout, line width). -/
def matchSignature (s : String) : Option (String × String) :=
  let cs := s.toList
  if "@signature(".toList.isPrefixOf cs then
    let t := cs.drop 11
    let g1 := t.takeWhile (· ≠ ',')
    if g1.isEmpty then none
    else
      match t.drop g1.length with
      | ',' :: v =>
        let v2 := v.dropWhile isPySpace
        let g2 := v2.takeWhile isWordChar
        if g2.isEmpty then none
        else
          match v2.drop g2.length with
          | ')' :: rest =>
            if rest.all isPySpace then some ((pyStripChars g1).asString, g2.asString)
            else none
          | _ => none
      | _ => none
  else none

/-- The optional-subtitle tail `(?:\s*\|\s*(.+))?\s*$` of the signature item
regex, applied after a candidate label capture: the pipe alternative is tried
first, the empty alternative requires the remainder to be all whitespace. -/
def sigTail (rem : List Char) : Option (Option String) :=
  let pipeRes : Option String :=
    match (rem.dropWhile isPySpace) with
    | '|' :: rem3 =>
      if rem3.isEmpty then none
      else
        let body := rem3.dropWhile isPySpace
        if !body.isEmpty then some body.asString
        else some (rem3.drop (rem3.length - 1)).asString
    | _ => none
  match pipeRes with
  | some g3 => some (some g3)
  | none => if rem.all isPySpace then some none else none

/-- Lazy growth of the label capture `(.+?)` of the signature item regex. -/
def sigScanG2 (acc : List Char) : List Char → Option (List Char × Option String)
  | [] => none
  | c :: rest =>
    match sigTail rest with
    | some g3 => some (acc ++ [c], g3)
    | none => sigScanG2 (acc ++ [c]) rest

/-- Backtracking of `:\s*(.+?)...` in the signature item regex: whitespace
longest first, label capture shortest first. -/
def sigScanW (rest : List Char) : Nat → Option (List Char × Option String)
  | 0 => sigScanG2 [] rest
  | w + 1 =>
    match sigScanG2 [] (rest.drop (w + 1)) with
    | some r => some r
    | none => sigScanW rest w

/-- The signature item regex `^(\w+)\s*:\s*(.+?)(?:\s*\|\s*(.+))?\s*$`,
returning (role reference, raw label capture, raw subtitle capture). -/
def matchSigLine (s : String) : Option (String × String × Option String) :=
  let cs := s.toList
  let g1 := cs.takeWhile isWordChar
  if g1.isEmpty then none
  else
    match (cs.drop g1.length).dropWhile isPySpace with
    | ':' :: rest =>
      let wmax := (rest.takeWhile isPySpace).length
      (sigScanW rest wmax).map (fun r => (g1.asString, r.1.asString, r.2))
    | _ => none

/-- The role lookup produced by `parse_roles`. -/
def RolesMap := List (String × Role)

/-- `roles_map.get(ref)` with the `make_id(ref)` fallback. -/
def roleIdFor (rm : RolesMap) (ref : String) : String :=
  match dictFind rm ref with
  | some r => r.id
  | none => makeId ref

/-- The option-collection loop of the checkbox rule; returns the options and
the number of consumed lines. -/
def collectOptions (label : String) : List String → List OptionEntry × Nat
  | [] => ([], 0)
  | l :: rest =>
    match matchOptionLine l with
    | none => ([], 0)
    | some optText =>
      let p := collectOptions label rest
      (⟨makeId (label ++ ":" ++ optText), optText⟩ :: p.1, p.2 + 1)

/-- Build one signature item from the parsed captures. -/
def mkSigItem (rm : RolesMap) (ref rawLabel : String) (rawSubtitle : Option String) :
    SigItem :=
  let label := pyStrip rawLabel
  let subtitle :=
    match rawSubtitle with
    | some g => if pyStrip g = "" then none else some (pyStrip g)
    | none => none
  ⟨makeId ("sig:" ++ ref ++ ":" ++ label), roleIdFor rm ref, label, 100, subtitle⟩

/-- The item-collection loop of the signature rule: every option-shaped line
is consumed; only those matching the item regex contribute an item. -/
def collectSigs (rm : RolesMap) : List String → List SigItem × Nat
  | [] => ([], 0)
  | l :: rest =>
    match matchOptionLine l with
    | none => ([], 0)
    | some sigLine =>
      let p := collectSigs rm rest
      match matchSigLine sigLine with
      | some (ref, rawLabel, rawSub) => (mkSigItem rm ref rawLabel rawSub :: p.1, p.2 + 1)
      | none => (p.1, p.2 + 1)

/-- The bullet-list collection loop (item texts), with consumed-line count. -/
def collectBullets : List String → List String × Nat
  | [] => ([], 0)
  | l :: rest =>
    let st := pyStrip l
    if strStartsWith st "- " then
      let p := collectBullets rest
      (strDrop st 2 :: p.1, p.2 + 1)
    else ([], 0)

/-- `_ORDERED_RE.match(s)`: `^\d+\.\s+(.+)$`. -/
def matchOrdered (s : String) : Option String :=
  let cs := s.toList
  let ds := cs.takeWhile isDigitChar
  if ds.isEmpty then none
  else
    match cs.drop ds.length with
    | '.' :: rest => (wsPlusRest rest).map (·.asString)
    | _ => none

/-- The ordered-list collection loop (item texts), with consumed-line count. -/
def collectOrdered : List String → List String × Nat
  | [] => ([], 0)
  | l :: rest =>
    match matchOrdered (pyStrip l) with
    | none => ([], 0)
    | some text =>
      let p := collectOrdered rest
      (text :: p.1, p.2 + 1)

/-- One iteration of the `parse_content` while-loop, acting on the suffix of
the line list that starts at the cursor: returns the nodes appended during
the iteration and the number of lines the cursor advances (which the table,
bullet and ordered rules can leave at zero — the stall). -/
def parseStep (rm : RolesMap) (rest : List String) : List Node × Nat :=
  match rest with
  | [] => ([], 0)
  | line :: tail =>
    let ac : Option String × String :=
      if strStartsWith line "@center " then (some "center", strDrop line 8)
      else if strStartsWith line "@right " then (some "right", strDrop line 7)
      else if strStartsWith line "@justify " then (some "justify", strDrop line 9)
      else (none, line)
    let align := ac.1
    let stripped := pyStrip ac.2
    if stripped = "" ∧ align = none then ([Node.paragraph none none], 1)
    else if stripped = "---" then ([Node.horizontalRule], 1)
    else if stripped = "===" then ([Node.pageBreak], 1)
    else
      match matchHeading stripped with
      | some hm => ([mkHeading hm.2 hm.1 align], 1)
      | none =>
        match matchCheckbox stripped with
        | some cm =>
          let p := collectOptions cm.2 tail
          ([Node.interactiveField
              ⟨makeId ("checkbox:" ++ cm.2), "checkbox", roleIdFor rm cm.1, cm.2, true,
               p.1, "", 0, "vertical"⟩], 1 + p.2)
        | none =>
          match matchSignature stripped with
          | some sm =>
            let p := collectSigs rm tail
            ([Node.signature ⟨p.1.length, sm.1, sm.2, p.1⟩], 1 + p.2)
          | none =>
            if (matchTableRow stripped).isSome then
              match collectTableRows rest with
              | [] => ([], 0)
              | h :: tl => ([mkTableNode h tl], tl.length + 1)
            else if strStartsWith stripped "- " then
              let p := collectBullets rest
              ([Node.bulletList (p.1.map mkListItem)], p.2)
            else
              match matchOrdered stripped with
              | some _ =>
                let p := collectOrdered rest
                ([Node.orderedList (p.1.map mkListItem)], p.2)
              | none => ([mkParagraph stripped align], 1)

/-- The `parse_content` while-loop with fuel: `none` models a run that does
not finish (the loop condition `i < len(lines)` corresponds to a non-empty
remaining suffix, and each iteration drops the lines the step consumed). -/
def parseContentLoop (rm : RolesMap) : Nat → List String → List Node → Option (List Node)
  | _, [], acc => some acc
  | 0, _ :: _, _ => none
  | fuel + 1, l :: t, acc =>
    let p := parseStep rm (l :: t)
    parseContentLoop rm fuel ((l :: t).drop p.2) (acc ++ p.1)

/-- `parse_content(lines, roles_map)`, with fuel. -/
def parseContent (rm : RolesMap) (fuel : Nat) (lines : List String) : Option (List Node) :=
  parseContentLoop rm fuel lines []

/-! ## Variable-id collection (`collect_variable_ids`) -/

mutual

/-- Ids contributed by one node during the `traverse` walk: an injector's
`variableId` when truthy (non-empty), plus the ids below its `content`
children.  `interactiveField` and `signature` nodes carry no `content` key,
and the loop over `attrs['signatures']` is a no-op in the source. -/
def gatherIdsNode : Node → List String
  | .text _ _ => []
  | .injector a => if a.variableId ≠ "" then [a.variableId] else []
  | .paragraph _ c => gatherIdsOpt c
  | .heading _ _ c => gatherIdsOpt c
  | .horizontalRule => []
  | .pageBreak => []
  | .interactiveField _ => []
  | .signature _ => []
  | .table _ c => gatherIdsList c
  | .tableRow c => gatherIdsList c
  | .tableHeader c => gatherIdsOpt c
  | .tableCell _ c => gatherIdsOpt c
  | .bulletList c => gatherIdsList c
  | .orderedList c => gatherIdsList c
  | .listItem c => gatherIdsList c

/-- Ids below an optional `content` value. -/
def gatherIdsOpt : Option (List Node) → List String
  | none => []
  | some l => gatherIdsList l

/-- Ids gathered by `traverse(nodes)`, in traversal order, duplicates kept. -/
def gatherIdsList : List Node → List String
  | [] => []
  | n :: ns => gatherIdsNode n ++ gatherIdsList ns

end

mutual

/-- Comparator for the refinement claim about `variableIds`, following the
spec's words: every injector `variableId` value occurring anywhere in the
tree, with no truthiness filter. -/
def specAllIdsNode : Node → List String
  | .text _ _ => []
  | .injector a => [a.variableId]
  | .paragraph _ c => specAllIdsOpt c
  | .heading _ _ c => specAllIdsOpt c
  | .horizontalRule => []
  | .pageBreak => []
  | .interactiveField _ => []
  | .signature _ => []
  | .table _ c => specAllIdsList c
  | .tableRow c => specAllIdsList c
  | .tableHeader c => specAllIdsOpt c
  | .tableCell _ c => specAllIdsOpt c
  | .bulletList c => specAllIdsList c
  | .orderedList c => specAllIdsList c
  | .listItem c => specAllIdsList c

/-- Spec-side ids below an optional `content` value. -/
def specAllIdsOpt : Option (List Node) → List String
  | none => []
  | some l => specAllIdsList l

/-- Spec-side ids of a node list. -/
def specAllIdsList : List Node → List String
  | [] => []
  | n :: ns => specAllIdsNode n ++ specAllIdsList ns

end

/-- Code-point comparison of strings (Python compares strings
lexicographically by code point, which is what `sorted` uses). -/
def cmpChars : List Char → List Char → Ordering
  | [], [] => .eq
  | [], _ :: _ => .lt
  | _ :: _, [] => .gt
  | a :: as, b :: bs =>
    if a.toNat < b.toNat then .lt
    else if b.toNat < a.toNat then .gt
    else cmpChars as bs

/-- Code-point comparison of strings. -/
def strCmp (a b : String) : Ordering := cmpChars a.toList b.toList

/-- Insert into a strictly increasing list, dropping duplicates. -/
def insertSorted (x : String) : List String → List String
  | [] => [x]
  | y :: ys =>
    match strCmp x y with
    | .lt => x :: y :: ys
    | .eq => y :: ys
    | .gt => y :: insertSorted x ys

/-- `sorted(set(l))`: the strictly increasing enumeration of the members. -/
def sortedDedup (l : List String) : List String :=
  l.foldl (fun acc x => insertSorted x acc) []

/-- `collect_variable_ids(content_nodes)`: the gathered truthy ids as a
sorted duplicate-free list (`sorted` over the accumulated `set`). -/
def collectVariableIds (nodes : List Node) : List String :=
  sortedDedup (gatherIdsList nodes)

/-! ## Assembly (`convert_docml`), with the file layer stripped away -/

structure ExportInfo where
  exportedAt : String
  sourceApp : String
deriving Repr, DecidableEq

structure Document where
  version : String
  meta : MetaData
  pageConfig : PageConfig
  variableIds : List String
  signerRoles : List Role
  signingWorkflow : Workflow
  content : List Node
  exportInfo : ExportInfo
deriving Repr

/-- `SOURCE_APP`. -/
def sourceAppTag : String := "doc-assembly-web/1.1.0"

/-- `parse_meta` as the assembler sees it: the `ValueError` of
`int(kv.get('margins', '72'))` becomes the error case. -/
def parseMetaE (lines : List String) : Except String MetaInfo :=
  match parseMeta lines with
  | some mi => .ok mi
  | none =>
    .error ("invalid literal for int() with base 10: " ++
      dictGetD (metaKV lines) "margins" "72")

/-- `convert_docml` on the already-read text, with the timestamp `now` passed
in (the only wall-clock input) and the `parse_content` fuel made explicit:
`none` is a run that does not finish, `some (.error e)` a raised error,
`some (.ok d)` the produced document. -/
def convertDocml (text now : String) (fuel : Nat) : Option (Except String Document) :=
  let sections := splitSections text
  if !dictContains sections "meta" then some (.error "Falta la seccion ---meta---")
  else if !dictContains sections "content" then
    some (.error "Falta la seccion ---content---")
  else
    match parseMetaE (dictGetD sections "meta" []) with
    | .error e => some (.error e)
    | .ok mi =>
      let rp := parseRoles (dictGetD sections "roles" [])
      let wf := parseWorkflow (dictGetD sections "workflow" [])
      match parseContent rp.2 fuel (dictGetD sections "content" []) with
      | none => none
      | some nodes =>
        some (.ok ⟨"1.1.0", mi.meta, mi.pageConfig, collectVariableIds nodes, rp.1, wf,
                   nodes, ⟨now, sourceAppTag⟩⟩)

/-- Blank out the one timestamp-dependent field. -/
def eraseExportedAt (d : Document) : Document :=
  { d with exportInfo := ⟨"", d.exportInfo.sourceApp⟩ }

/-! ## Order bridge: `strCmp` agrees with the lexicographic string order -/

theorem char_lt_iff_toNat (a b : Char) : a < b ↔ a.toNat < b.toNat := Iff.rfl

theorem char_eq_of_toNat_eq {a b : Char} (h : a.toNat = b.toNat) : a = b :=
  Char.eq_of_val_eq (UInt32.eq_of_toBitVec_eq (BitVec.eq_of_toNat_eq h))

theorem string_eq_of_toList_eq {a b : String} (h : a.toList = b.toList) : a = b := by
  cases a
  cases b
  exact congrArg String.mk h

theorem cmpChars_eq_iff : ∀ {a b : List Char}, cmpChars a b = .eq ↔ a = b
  | [], [] => by simp [cmpChars]
  | [], _ :: _ => by simp [cmpChars]
  | _ :: _, [] => by simp [cmpChars]
  | a :: as, b :: bs => by
    by_cases h1 : a.toNat < b.toNat
    · simp only [cmpChars, if_pos h1]
      constructor
      · intro h
        exact absurd h (by simp)
      · intro h
        cases h
        exact absurd h1 (Nat.lt_irrefl _)
    · by_cases h2 : b.toNat < a.toNat
      · simp only [cmpChars, if_neg h1, if_pos h2]
        constructor
        · intro h
          exact absurd h (by simp)
        · intro h
          cases h
          exact absurd h2 (Nat.lt_irrefl _)
      · have hab : a = b := char_eq_of_toNat_eq (Nat.le_antisymm (Nat.not_lt.mp h2) (Nat.not_lt.mp h1))
        subst hab
        simp only [cmpChars, if_neg h1, if_neg h2]
        rw [cmpChars_eq_iff]
        simp

theorem cmpChars_lt_iff : ∀ {a b : List Char}, cmpChars a b = .lt ↔ a < b
  | [], [] => by
    constructor
    · intro h
      simp [cmpChars] at h
    · intro h
      cases h
  | [], b :: bs => by
    simp only [cmpChars]
    exact ⟨fun _ => List.Lex.nil, fun _ => trivial⟩
  | _ :: _, [] => by
    constructor
    · intro h
      simp [cmpChars] at h
    · intro h
      cases h
  | a :: as, b :: bs => by
    by_cases h1 : a.toNat < b.toNat
    · simp only [cmpChars, if_pos h1]
      exact ⟨fun _ => List.Lex.rel ((char_lt_iff_toNat a b).mpr h1), fun _ => trivial⟩
    · by_cases h2 : b.toNat < a.toNat
      · simp only [cmpChars, if_neg h1, if_pos h2]
        constructor
        · intro h
          simp at h
        · intro h
          cases h with
          | cons h' => exact absurd h2 (Nat.lt_irrefl _)
          | rel h' => exact absurd ((char_lt_iff_toNat a b).mp h') h1
      · have hab : a = b := char_eq_of_toNat_eq (Nat.le_antisymm (Nat.not_lt.mp h2) (Nat.not_lt.mp h1))
        subst hab
        simp only [cmpChars, if_neg h1]
        rw [cmpChars_lt_iff (a := as) (b := bs)]
        constructor
        · intro h
          exact List.Lex.cons h
        · intro h
          cases h with
          | cons h' => exact h'
          | rel h' => exact absurd ((char_lt_iff_toNat a a).mp h') h1

theorem cmpChars_gt_iff : ∀ {a b : List Char}, cmpChars a b = .gt ↔ b < a
  | [], [] => by
    constructor
    · intro h
      simp [cmpChars] at h
    · intro h
      cases h
  | [], _ :: _ => by
    constructor
    · intro h
      simp [cmpChars] at h
    · intro h
      cases h
  | a :: as, [] => by
    simp only [cmpChars]
    exact ⟨fun _ => List.Lex.nil, fun _ => trivial⟩
  | a :: as, b :: bs => by
    by_cases h1 : a.toNat < b.toNat
    · simp only [cmpChars, if_pos h1]
      constructor
      · intro h
        simp at h
      · intro h
        cases h with
        | cons h' => exact absurd h1 (Nat.lt_irrefl _)
        | rel h' => exact absurd h1 (Nat.lt_asymm ((char_lt_iff_toNat b a).mp h'))
    · by_cases h2 : b.toNat < a.toNat
      · simp only [cmpChars, if_neg h1, if_pos h2]
        exact ⟨fun _ => List.Lex.rel ((char_lt_iff_toNat b a).mpr h2), fun _ => trivial⟩
      · have hab : a = b := char_eq_of_toNat_eq (Nat.le_antisymm (Nat.not_lt.mp h2) (Nat.not_lt.mp h1))
        subst hab
        simp only [cmpChars, if_neg h1]
        rw [cmpChars_gt_iff (a := as) (b := bs)]
        constructor
        · intro h
          exact List.Lex.cons h
        · intro h
          cases h with
          | cons h' => exact h'
          | rel h' => exact absurd ((char_lt_iff_toNat a a).mp h') h1

theorem strCmp_eq_iff {a b : String} : strCmp a b = .eq ↔ a = b := by
  rw [strCmp, cmpChars_eq_iff]
  exact ⟨string_eq_of_toList_eq, fun h => h ▸ rfl⟩

theorem strCmp_lt_iff {a b : String} : strCmp a b = .lt ↔ a < b := by
  rw [strCmp, cmpChars_lt_iff, String.lt_iff_toList_lt]

theorem strCmp_gt_iff {a b : String} : strCmp a b = .gt ↔ b < a := by
  rw [strCmp, cmpChars_gt_iff, String.lt_iff_toList_lt]

/-! ## `insertSorted` and `sortedDedup` -/

theorem mem_insertSorted (x y : String) :
    ∀ l : List String, y ∈ insertSorted x l ↔ y = x ∨ y ∈ l
  | [] => by simp [insertSorted]
  | z :: zs => by
    rcases hc : strCmp x z with _ | _ | _
    · simp only [insertSorted, hc, List.mem_cons]
    · simp only [insertSorted, hc]
      have hxz : x = z := strCmp_eq_iff.mp hc
      subst hxz
      constructor
      · intro h
        exact Or.inr h
      · intro h
        rcases h with h | h
        · exact h ▸ List.mem_cons_self _ _
        · exact h
    · simp only [insertSorted, hc, List.mem_cons]
      rw [mem_insertSorted x y zs]
      tauto

theorem sorted_insertSorted (x : String) :
    ∀ l : List String, List.Sorted (· < ·) l → List.Sorted (· < ·) (insertSorted x l)
  | [], _ => by simp [insertSorted]
  | z :: zs, hs => by
    rw [List.sorted_cons] at hs
    rcases hc : strCmp x z with _ | _ | _
    · rw [insertSorted, hc, List.sorted_cons]
      have hxz : x < z := strCmp_lt_iff.mp hc
      refine ⟨?_, List.sorted_cons.mpr hs⟩
      intro b hb
      rcases List.mem_cons.mp hb with h | h
      · exact h ▸ hxz
      · exact lt_trans hxz (hs.1 b h)
    · simpa only [insertSorted, hc] using List.sorted_cons.mpr hs
    · rw [insertSorted, hc, List.sorted_cons]
      refine ⟨?_, sorted_insertSorted x zs hs.2⟩
      intro b hb
      rcases (mem_insertSorted x b zs).mp hb with h | h
      · exact h ▸ strCmp_gt_iff.mp hc
      · exact hs.1 b h

theorem sortedDedup_go_sorted :
    ∀ (l acc : List String), List.Sorted (· < ·) acc →
      List.Sorted (· < ·) (l.foldl (fun acc x => insertSorted x acc) acc)
  | [], _, h => h
  | x :: xs, acc, h =>
    sortedDedup_go_sorted xs (insertSorted x acc) (sorted_insertSorted x acc h)

theorem mem_sortedDedup_go :
    ∀ (l acc : List String) (y : String),
      y ∈ l.foldl (fun acc x => insertSorted x acc) acc ↔ y ∈ acc ∨ y ∈ l
  | [], acc, y => by simp
  | x :: xs, acc, y => by
    rw [List.foldl_cons, mem_sortedDedup_go xs (insertSorted x acc) y,
      mem_insertSorted x y acc]
    simp only [List.mem_cons]
    tauto

theorem sortedDedup_sorted (l : List String) : List.Sorted (· < ·) (sortedDedup l) :=
  sortedDedup_go_sorted l [] List.sorted_nil

theorem mem_sortedDedup (l : List String) (y : String) : y ∈ sortedDedup l ↔ y ∈ l := by
  rw [sortedDedup, mem_sortedDedup_go]
  simp

/-! ## The gathered ids are exactly the non-empty spec-side ids -/

mutual

theorem gather_spec_node :
    ∀ (n : Node) (y : String), y ∈ gatherIdsNode n ↔ y ∈ specAllIdsNode n ∧ y ≠ ""
  | .text _ _, y => by simp [gatherIdsNode, specAllIdsNode]
  | .injector a, y => by
    simp only [gatherIdsNode, specAllIdsNode]
    by_cases h : a.variableId = ""
    · rw [if_neg (fun hne => hne h)]
      simp only [List.not_mem_nil, false_iff, List.mem_singleton, not_and]
      rintro rfl
      simp [h]
    · rw [if_pos h]
      simp only [List.mem_singleton]
      constructor
      · rintro rfl
        exact ⟨rfl, h⟩
      · rintro ⟨rfl, _⟩
        rfl
  | .paragraph _ c, y => gather_spec_opt c y
  | .heading _ _ c, y => gather_spec_opt c y
  | .horizontalRule, y => by simp [gatherIdsNode, specAllIdsNode]
  | .pageBreak, y => by simp [gatherIdsNode, specAllIdsNode]
  | .interactiveField _, y => by simp [gatherIdsNode, specAllIdsNode]
  | .signature _, y => by simp [gatherIdsNode, specAllIdsNode]
  | .table _ c, y => gather_spec_list c y
  | .tableRow c, y => gather_spec_list c y
  | .tableHeader c, y => gather_spec_opt c y
  | .tableCell _ c, y => gather_spec_opt c y
  | .bulletList c, y => gather_spec_list c y
  | .orderedList c, y => gather_spec_list c y
  | .listItem c, y => gather_spec_list c y

theorem gather_spec_opt :
    ∀ (c : Option (List Node)) (y : String), y ∈ gatherIdsOpt c ↔ y ∈ specAllIdsOpt c ∧ y ≠ ""
  | none, y => by simp [gatherIdsOpt, specAllIdsOpt]
  | some l, y => gather_spec_list l y

theorem gather_spec_list :
    ∀ (ns : List Node) (y : String), y ∈ gatherIdsList ns ↔ y ∈ specAllIdsList ns ∧ y ≠ ""
  | [], y => by simp [gatherIdsList, specAllIdsList]
  | n :: ns, y => by
    simp only [gatherIdsList, specAllIdsList, List.mem_append]
    rw [gather_spec_node n y, gather_spec_list ns y]
    tauto

end

/-- Membership characterization of `collect_variable_ids`. -/
theorem mem_collectVariableIds (nodes : List Node) (y : String) :
    y ∈ collectVariableIds nodes ↔ y ∈ specAllIdsList nodes ∧ y ≠ "" := by
  rw [collectVariableIds, mem_sortedDedup, gather_spec_list]

/-- Sortedness of `collect_variable_ids`. -/
theorem sorted_collectVariableIds (nodes : List Node) :
    List.Sorted (· < ·) (collectVariableIds nodes) :=
  sortedDedup_sorted _

/-! ## Association-list dictionary lemmas -/

theorem dictFind_dictSet_self (d : List (String × α)) (k : String) (v : α) :
    dictFind (dictSet d k v) k = some v := by
  induction d with
  | nil => simp [dictSet, dictFind]
  | cons p rest ih =>
    by_cases h : p.1 = k
    · simp [dictSet, dictFind, h]
    · simpa [dictSet, dictFind, h] using ih

theorem dictFind_dictSet_ne (d : List (String × α)) (k k' : String) (v : α)
    (h : k' ≠ k) : dictFind (dictSet d k v) k' = dictFind d k' := by
  induction d with
  | nil =>
    simp only [dictSet, dictFind]
    rw [if_neg (fun hh => h hh.symm)]
  | cons p rest ih =>
    obtain ⟨pk, pv⟩ := p
    by_cases h1 : pk = k
    · subst h1
      simp only [dictSet, if_pos rfl, dictFind]
      rw [if_neg (fun hh => h hh.symm), if_neg (fun hh => h hh.symm)]
    · simp only [dictSet, if_neg h1, dictFind]
      by_cases h2 : pk = k'
      · rw [if_pos h2, if_pos h2]
      · rw [if_neg h2, if_neg h2]
        exact ih

/-! ## Strip and whitespace lemmas -/

theorem dropWhile_of_all {p : Char → Bool} {t : List Char} (h : t.all p = true) :
    List.dropWhile p t = [] :=
  List.dropWhile_eq_nil_iff.mpr (List.all_eq_true.mp h)

theorem pyStripChars_append_ws (t cur : List Char) (h : t.all isPySpace = true) :
    pyStripChars (cur ++ t) = pyStripChars cur := by
  unfold pyStripChars
  rw [List.dropWhile_append]
  by_cases hc : (List.dropWhile isPySpace cur).isEmpty
  · rw [if_pos hc, dropWhile_of_all h, List.isEmpty_iff.mp hc]
  · rw [if_neg hc, List.reverse_append, List.dropWhile_append,
      if_pos (by rw [dropWhile_of_all (by simpa using h)]; rfl)]

/-! ## `_split_table_cells` loop lemmas -/

theorem isPySpace_not_special {c : Char} (h : isPySpace c = true) :
    c ≠ '[' ∧ c ≠ ']' ∧ c ≠ '|' := by
  simp only [isPySpace, Bool.or_eq_true, decide_eq_true_eq] at h
  rcases h with ((((h | h) | h) | h) | h) | h <;> subst h <;>
    exact ⟨by decide, by decide, by decide⟩

theorem splitCellsLoop_ws :
    ∀ (t : List Char), t.all isPySpace = true → ∀ (cells : List String) (cur : List Char) (d : Nat),
      splitCellsLoop t cells cur d = splitCellsLoop [] cells (cur ++ t) d
  | [], _, cells, cur, d => by rw [List.append_nil]
  | c :: t', h, cells, cur, d => by
    have hc : isPySpace c = true := (List.all_eq_true.mp h c (List.mem_cons_self c t'))
    have ht' : t'.all isPySpace = true :=
      List.all_eq_true.mpr (fun x hx => List.all_eq_true.mp h x (List.mem_cons_of_mem c hx))
    obtain ⟨h1, h2, h3⟩ := isPySpace_not_special hc
    have hb : (decide (c = '|') && decide (d = 0)) = false := by
      simp [h3]
    simp only [splitCellsLoop, if_neg h1, if_neg h2]
    rw [if_neg (by simp [h3])]
    rw [splitCellsLoop_ws t' ht' cells (cur ++ [c]) d, List.append_assoc]
    rfl

theorem splitCellsLoop_append_ws (t : List Char) (ht : t.all isPySpace = true) :
    ∀ (cs : List Char) (cells : List String) (cur : List Char) (d : Nat),
      splitCellsLoop (cs ++ t) cells cur d = splitCellsLoop cs cells cur d
  | [], cells, cur, d => by
    rw [List.nil_append, splitCellsLoop_ws t ht cells cur d]
    simp only [splitCellsLoop]
    rw [pyStripChars_append_ws t cur ht]
  | c :: cs, cells, cur, d => by
    simp only [List.cons_append, splitCellsLoop]
    by_cases h1 : c = '['
    · rw [if_pos h1, if_pos h1]
      exact splitCellsLoop_append_ws t ht cs cells (cur ++ [c]) (d + 1)
    · rw [if_neg h1, if_neg h1]
      by_cases h2 : c = ']'
      · rw [if_pos h2, if_pos h2]
        exact splitCellsLoop_append_ws t ht cs cells (cur ++ [c]) (d - 1)
      · rw [if_neg h2, if_neg h2]
        by_cases h3 : (decide (c = '|') && decide (d = 0)) = true
        · rw [if_pos h3, if_pos h3]
          exact splitCellsLoop_append_ws t ht cs (cells ++ [(pyStripChars cur).asString]) [] d
        · rw [if_neg h3, if_neg h3]
          exact splitCellsLoop_append_ws t ht cs cells (cur ++ [c]) d

/-- The whitespace-tail discard fact at the level of `_split_table_cells`. -/
theorem splitTableCells_ws_tail (s t : String) (ht : t.toList.all isPySpace = true) :
    splitTableCells (s ++ "|" ++ t) = splitTableCells (s ++ "|") := by
  unfold splitTableCells
  have h1 : (s ++ "|" ++ t).toList = (s ++ "|").toList ++ t.toList := by
    simp [String.toList]
  rw [h1, splitCellsLoop_append_ws t.toList ht]

/-! ## `split_sections` latching lemmas -/

theorem splitRun_inContent :
    ∀ (lines : List String) (st : SplitState), st.inContent = true →
      splitRun lines st = { st with currentLines := st.currentLines ++ lines }
  | [], st, _ => by simp [splitRun]
  | l :: ls, st, h => by
    have hstep : splitStep st l = { st with currentLines := st.currentLines ++ [l] } := by
      simp [splitStep, h]
    have h2 : splitRun (l :: ls) st = splitRun ls { st with currentLines := st.currentLines ++ [l] } := by
      rw [splitRun, List.foldl_cons, hstep]
      rfl
    rw [h2, splitRun_inContent ls { st with currentLines := st.currentLines ++ [l] } h]
    simp

/-! ## Inline fold invariants -/

theorem mkMarks_sublist (b i u : Bool) :
    (mkMarks b i u).Sublist ["bold", "italic", "underline"] := by
  cases b <;> cases i <;> cases u <;> decide

theorem inlineFold_marks :
    ∀ (toks : List String) (b i u : Bool) (tx : String) (m : List String),
      Node.text tx (some m) ∈ inlineFold toks b i u →
      ∃ b' i' u', m = mkMarks b' i' u' ∧ (mkMarks b' i' u').isEmpty = false
  | [], _, _, _, _, _, h => absurd h (List.not_mem_nil _)
  | tok :: rest, b, i, u, tx, m, h => by
    rw [inlineFold] at h
    by_cases h0 : tok = ""
    · rw [if_pos h0] at h
      exact inlineFold_marks rest b i u tx m h
    · rw [if_neg h0] at h
      by_cases h1 : tok = "**"
      · rw [if_pos h1] at h
        exact inlineFold_marks rest (!b) i u tx m h
      · rw [if_neg h1] at h
        by_cases h2 : tok = "*"
        · rw [if_pos h2] at h
          exact inlineFold_marks rest b (!i) u tx m h
        · rw [if_neg h2] at h
          by_cases h3 : tok = "__"
          · rw [if_pos h3] at h
            exact inlineFold_marks rest b i (!u) tx m h
          · rw [if_neg h3] at h
            cases hinj : injectorMatch tok with
            | some g =>
              rw [hinj] at h
              obtain ⟨g1, g2, g3⟩ := g
              rcases List.mem_cons.mp h with he | ht
              · exact absurd he.symm (by simp [mkInjectorNode])
              · exact inlineFold_marks rest b i u tx m ht
            | none =>
              rw [hinj] at h
              rcases List.mem_cons.mp h with he | ht
              · by_cases hmk : (mkMarks b i u).isEmpty
                · rw [if_pos hmk] at he
                  exact absurd (Node.text.injEq .. ▸ congrArg id he) (by
                    intro hco
                    cases he)
                · rw [if_neg hmk] at he
                  cases he
                  exact ⟨b, i, u, rfl, Bool.not_eq_true _ ▸ (by simpa using hmk)⟩
              · exact inlineFold_marks rest b i u tx m ht

/-! ## Checkbox option identifiers -/

theorem collectOptions_id (label : String) :
    ∀ (lines : List String) (o : OptionEntry), o ∈ (collectOptions label lines).1 →
      o.id = makeId (label ++ ":" ++ o.label)
  | [], _, h => absurd h (List.not_mem_nil _)
  | l :: rest, o, h => by
    rw [collectOptions] at h
    cases hm : matchOptionLine l with
    | none =>
      rw [hm] at h
      exact absurd h (List.not_mem_nil _)
    | some t =>
      rw [hm] at h
      rcases List.mem_cons.mp h with he | ht
      · subst he
        rfl
      · exact collectOptions_id label rest o ht

/-- `parse_meta` raises exactly when the `margins` value fails `int()`. -/
theorem parseMetaE_error_iff (lines : List String) :
    (∃ e, parseMetaE lines = .error e) ↔
      pyInt (dictGetD (metaKV lines) "margins" "72") = none := by
  cases hpi : pyInt (dictGetD (metaKV lines) "margins" "72") with
  | none =>
    refine iff_of_true ⟨"invalid literal for int() with base 10: " ++
      dictGetD (metaKV lines) "margins" "72", ?_⟩ rfl
    simp only [parseMetaE, parseMeta, hpi]
  | some m =>
    refine iff_of_false ?_ (by simp)
    rintro ⟨e, he⟩
    simp only [parseMetaE, parseMeta, hpi] at he
    exact Except.noConfusion he

/-! ## Claim theorems -/

/-- C1: the claim says every iteration of the `parse_content` loop advances
the cursor by at least one line, in particular when a table row, bullet item
or ordered item carries an alignment prefix, and that N blank lines give N
spacer paragraphs.  The code violates the progress part: on the single
content line `@center |a|b|` the table rule fires on the prefix-stripped
text, `_parse_table_block` re-checks the raw line, collects no rows and
returns the cursor unchanged, so the loop never terminates (the fueled loop
returns `none` for every fuel).  The blank-line part does hold. -/
theorem c1_progress_guarantee_fails :
    parseStep [] ["@center |a|b|"] = ([], 0) ∧
    (∀ fuel acc, parseContentLoop [] fuel ["@center |a|b|"] acc = none) ∧
    (∀ n, parseContent [] n (List.replicate n "") =
      some (List.replicate n (Node.paragraph none none))) := by
  refine ⟨rfl, ?_, ?_⟩
  · intro fuel
    induction fuel with
    | zero => intro acc; rfl
    | succ f ih =>
      intro acc
      calc parseContentLoop [] (f + 1) ["@center |a|b|"] acc
          = parseContentLoop [] f ["@center |a|b|"] (acc ++ []) := rfl
        _ = parseContentLoop [] f ["@center |a|b|"] acc := by rw [List.append_nil]
        _ = none := ih acc
  · have key : ∀ n acc, parseContentLoop [] n (List.replicate n "") acc =
        some (acc ++ List.replicate n (Node.paragraph none none)) := by
      intro n
      induction n with
      | zero => intro acc; simp [parseContentLoop, List.replicate]
      | succ k ih =>
        intro acc
        rw [List.replicate_succ]
        calc parseContentLoop [] (k + 1) ("" :: List.replicate k "") acc
            = parseContentLoop [] k (List.replicate k "")
                (acc ++ [Node.paragraph none none]) := rfl
          _ = some ((acc ++ [Node.paragraph none none]) ++
                List.replicate k (Node.paragraph none none)) := ih _
          _ = some (acc ++ List.replicate (k + 1) (Node.paragraph none none)) := by
                rw [List.append_assoc, List.replicate_succ]
                rfl
    intro n
    rw [parseContent, key n []]
    rfl

/-- C2: for a fixed source text, two conversions at different timestamps
agree on everything except `exportInfo.exportedAt` (here: after blanking that
field the two results are equal, in every case — error, non-termination, or
success). -/
theorem c2_conversion_deterministic (text now1 now2 : String) (fuel : Nat) :
    (convertDocml text now1 fuel).map (Except.map eraseExportedAt) =
    (convertDocml text now2 fuel).map (Except.map eraseExportedAt) := by
  unfold convertDocml
  cases h1 : dictContains (splitSections text) "meta" with
  | false => simp [h1]
  | true =>
    cases h2 : dictContains (splitSections text) "content" with
    | false => simp [h1, h2]
    | true =>
      simp only [h1, h2, Bool.not_true, Bool.false_eq_true, if_false]
      cases hmi : parseMetaE (dictGetD (splitSections text) "meta" []) with
      | error e => rfl
      | ok mi =>
        cases hpc : parseContent (parseRoles (dictGetD (splitSections text) "roles" [])).2
            fuel (dictGetD (splitSections text) "content" []) with
        | none => rfl
        | some nodes => simp [Except.map, eraseExportedAt]

/-- C3 counterexample: an input with both a `meta` and a `content` section
still aborts conversion when the `margins` metadata value is not an integer
(`int('x')` raises `ValueError`), so "fails if and only if meta or content is
missing" is false as stated. -/
theorem c3_margins_value_error :
    convertDocml "---meta---\nmargins: x\n---content---\nhi" "now" 1 =
      some (.error "invalid literal for int() with base 10: x") ∧
    dictContains (splitSections "---meta---\nmargins: x\n---content---\nhi") "meta" = true ∧
    dictContains (splitSections "---meta---\nmargins: x\n---content---\nhi") "content" = true :=
  ⟨rfl, rfl, rfl⟩

/-- C3 amended: conversion of a single file raises a descriptive error iff
the split sections lack `meta`, lack `content`, or the `margins` metadata
value fails integer parsing; on every other input no error is raised (any
run that completes succeeds). -/
theorem c3_error_characterization (text now : String) (fuel : Nat) :
    (∃ e, convertDocml text now fuel = some (.error e)) ↔
      (dictContains (splitSections text) "meta" = false ∨
       dictContains (splitSections text) "content" = false ∨
       pyInt (dictGetD (metaKV (dictGetD (splitSections text) "meta" [])) "margins" "72") =
         none) := by
  cases h1 : dictContains (splitSections text) "meta" with
  | false =>
    have hc : convertDocml text now fuel = some (.error "Falta la seccion ---meta---") := by
      simp only [convertDocml]
      rw [h1]
      rfl
    rw [hc]
    exact iff_of_true ⟨_, rfl⟩ (Or.inl rfl)
  | true =>
    cases h2 : dictContains (splitSections text) "content" with
    | false =>
      have hc : convertDocml text now fuel =
          some (.error "Falta la seccion ---content---") := by
        simp only [convertDocml]
        rw [h1, h2]
        rfl
      rw [hc]
      exact iff_of_true ⟨_, rfl⟩ (Or.inr (Or.inl rfl))
    | true =>
      cases hmi : parseMetaE (dictGetD (splitSections text) "meta" []) with
      | error e0 =>
        have hpi : pyInt (dictGetD (metaKV (dictGetD (splitSections text) "meta" []))
            "margins" "72") = none :=
          (parseMetaE_error_iff _).mp ⟨e0, hmi⟩
        have hc : convertDocml text now fuel = some (.error e0) := by
          simp only [convertDocml, h1, h2, hmi, Bool.not_true, Bool.false_eq_true, if_false]
        rw [hc]
        exact iff_of_true ⟨_, rfl⟩ (Or.inr (Or.inr hpi))
      | ok mi =>
        have hpiok : pyInt (dictGetD (metaKV (dictGetD (splitSections text) "meta" []))
            "margins" "72") ≠ none := by
          intro hn
          obtain ⟨e, he⟩ := (parseMetaE_error_iff _).mpr hn
          rw [hmi] at he
          cases he
        refine iff_of_false ?_ ?_
        · rintro ⟨e, he⟩
          cases hpc : parseContent (parseRoles (dictGetD (splitSections text) "roles" [])).2
              fuel (dictGetD (splitSections text) "content" []) with
          | none =>
            simp only [convertDocml, h1, h2, hmi, hpc, Bool.not_true, Bool.false_eq_true,
              if_false] at he
            exact Option.noConfusion he
          | some nodes =>
            simp only [convertDocml, h1, h2, hmi, hpc, Bool.not_true, Bool.false_eq_true,
              if_false, Option.some.injEq] at he
            exact Except.noConfusion he
        · rintro (h | h | h)
          · exact Bool.noConfusion h
          · exact Bool.noConfusion h
          · exact hpiok h

/-- C4: once the splitter opens the `content` section, every subsequent line
— marker-shaped or not — is appended verbatim to the content lines, and no
further section is ever opened. -/
theorem c4_content_latch (text : String) (pre post : List String)
    (hsplit : pySplitNL text = pre ++ "---content---" :: post)
    (hpre : (splitRun pre splitInit).inContent = false) :
    dictFind (splitSections text) "content" = some post ∧
    ∀ k, k ≠ "content" →
      dictFind (splitSections text) k =
      dictFind (splitSectionsL (pre ++ ["---content---"])) k := by
  rcases hst : splitRun pre splitInit with ⟨s1, c1, l1, i1⟩
  have hi1 : i1 = false := by
    rw [hst] at hpre
    exact hpre
  subst hi1
  have hmain : splitSections text =
      dictSet (splitStep ⟨s1, c1, l1, false⟩ "---content---").sections "content" post := by
    unfold splitSections splitSectionsL
    rw [hsplit]
    unfold splitRun
    rw [List.foldl_append]
    rw [show List.foldl splitStep splitInit pre = splitRun pre splitInit from rfl, hst]
    rw [List.foldl_cons]
    rw [show List.foldl splitStep (splitStep ⟨s1, c1, l1, false⟩ "---content---") post =
        splitRun post (splitStep ⟨s1, c1, l1, false⟩ "---content---") from rfl]
    rw [splitRun_inContent post _ rfl]
    rfl
  have hside : splitSectionsL (pre ++ ["---content---"]) =
      dictSet (splitStep ⟨s1, c1, l1, false⟩ "---content---").sections "content" [] := by
    unfold splitSectionsL splitRun
    rw [List.foldl_append]
    rw [show List.foldl splitStep splitInit pre = splitRun pre splitInit from rfl, hst]
    rfl
  constructor
  · rw [hmain]
    exact dictFind_dictSet_self _ _ _
  · intro k hk
    rw [hmain, hside, dictFind_dictSet_ne _ _ _ _ hk, dictFind_dictSet_ne _ _ _ _ hk]

/-- C4 witness: a concrete text whose content section swallows a
marker-shaped line. -/
theorem c4_content_latch_witness :
    dictFind (splitSections "---meta---\nx\n---content---\nfoo\n---evil---\nbar")
      "content" = some ["foo", "---evil---", "bar"] :=
  (c4_content_latch "---meta---\nx\n---content---\nfoo\n---evil---\nbar"
    ["---meta---", "x"] ["foo", "---evil---", "bar"] rfl rfl).1

/-- C5: table-cell splitting is bracket-aware: the row `|Name|[sku|SKU]|`
captures inner text `Name|[sku|SKU]` and splits into exactly the two cells
`Name` and `[sku|SKU]`; a trailing segment that is empty after trimming is
discarded; a whitespace-only tail after the final pipe never adds a cell. -/
theorem c5_bracket_aware_cells :
    matchTableRow "|Name|[sku|SKU]|" = some "Name|[sku|SKU]" ∧
    splitTableCells "Name|[sku|SKU]" = ["Name", "[sku|SKU]"] ∧
    splitTableCells "Name|" = ["Name"] ∧
    ∀ s t : String, t.toList.all isPySpace = true →
      splitTableCells (s ++ "|" ++ t) = splitTableCells (s ++ "|") :=
  ⟨rfl, rfl, rfl, splitTableCells_ws_tail⟩

/-- C5 witness. -/
theorem c5_bracket_aware_cells_witness :
    splitTableCells ("a" ++ "|" ++ " ") = splitTableCells ("a" ++ "|") :=
  c5_bracket_aware_cells.2.2.2 "a" " " (by decide)

/-- C6: the line `**Bold** and [v1|Full Name]` tokenizes to a bold text run
`Bold`, an unmarked text run ` and ` (no `marks` entry at all), and an
injector with variableId `v1`, label `Full Name`, type `TEXT`; in general a
text run's marks, when present, are a non-empty sublist of the fixed order
bold, italic, underline. -/
theorem c6_inline_scenario :
    parseInline "**Bold** and [v1|Full Name]" =
      [Node.text "Bold" (some ["bold"]), Node.text " and " none,
       Node.injector ⟨"TEXT", "Full Name", "v1", none, false, none, none, false, none,
         none, false, none, none, none⟩] ∧
    ∀ (s tx : String) (m : List String),
      Node.text tx (some m) ∈ parseInline s →
      m ≠ [] ∧ m.Sublist ["bold", "italic", "underline"] := by
  refine ⟨rfl, ?_⟩
  intro s tx m hmem
  by_cases hs : s = ""
  · rw [hs] at hmem
    exact absurd hmem (List.not_mem_nil _)
  · rw [parseInline, if_neg hs] at hmem
    obtain ⟨b', i', u', hm, hne⟩ := inlineFold_marks (inlineSplit s) false false false tx m hmem
    subst hm
    refine ⟨?_, mkMarks_sublist b' i' u'⟩
    intro hnil
    rw [hnil] at hne
    cases hne

/-- C6 witness. -/
theorem c6_inline_scenario_witness :
    (["bold"] : List String) ≠ [] ∧
    (["bold"] : List String).Sublist ["bold", "italic", "underline"] :=
  c6_inline_scenario.2 "**x" "x" ["bold"]
    (by
      rw [show parseInline "**x" = [Node.text "x" (some ["bold"])] from rfl]
      exact List.mem_singleton.mpr rfl)

/-- C7 counterexample: a parsed tree can contain an injector whose
`variableId` trims to the empty string (from `[ |L]`); the collector drops
it, so the output is not the sorted deduplicated set of all injector ids. -/
theorem c7_all_ids_counterexample :
    (parseContent [] 1 ["[x|X] [ |L]"]).map collectVariableIds = some ["x"] ∧
    (parseContent [] 1 ["[x|X] [ |L]"]).map (fun ns => sortedDedup (specAllIdsList ns)) =
      some ["", "x"] ∧
    (["x"] : List String) ≠ ["", "x"] :=
  ⟨rfl, rfl, by decide⟩

/-- C7 amended: `variableIds` is the lexicographically sorted, duplicate-free
enumeration of the non-empty injector `variableId` values occurring anywhere
in the tree, independent of traversal order (membership characterization);
a tree without injector ids yields `[]`, and injectors `b`, `a`, `a` yield
exactly `["a", "b"]`. -/
theorem c7_variable_ids_characterization :
    (∀ nodes : List Node,
      List.Sorted (· < ·) (collectVariableIds nodes) ∧
      (∀ x, x ∈ collectVariableIds nodes ↔ x ∈ specAllIdsList nodes ∧ x ≠ "") ∧
      ((∀ x, x ∉ specAllIdsList nodes) → collectVariableIds nodes = [])) ∧
    collectVariableIds [Node.paragraph none (some [mkInjectorNode "b" "B" "TEXT",
      mkInjectorNode "a" "A" "TEXT", mkInjectorNode "a" "A" "TEXT"])] = ["a", "b"] := by
  refine ⟨?_, rfl⟩
  intro nodes
  refine ⟨sorted_collectVariableIds nodes, fun x => mem_collectVariableIds nodes x, ?_⟩
  intro hnone
  refine List.eq_nil_iff_forall_not_mem.mpr ?_
  intro x hx
  exact hnone x ((mem_collectVariableIds nodes x).mp hx).1

/-- C7 witness. -/
theorem c7_variable_ids_characterization_witness :
    collectVariableIds [] = [] :=
  (c7_variable_ids_characterization.1 []).2.2 (fun x hx => absurd hx (List.not_mem_nil x))

set_option maxRecDepth 40000 in
/-- C8 counterexample: two signature items of the same directive with the
same label text but different role references receive different identifiers
(the seed embeds the role reference), refuting the label-only collision for
signature items. -/
theorem c8_signature_label_collision_counterexample :
    ((collectSigs [] ["  | a: L", "  | b: L"]).1.map SigItem.label = ["L", "L"]) ∧
    ((collectSigs [] ["  | a: L", "  | b: L"]).1.map SigItem.id =
      [makeId "sig:a:L", makeId "sig:b:L"]) ∧
    makeId "sig:a:L" ≠ makeId "sig:b:L" :=
  ⟨rfl, rfl, by decide⟩

/-- C8 amended: every identifier other than `variableId` is `make_id` of its
seed string, and equal seeds give equal identifiers; consequently two
checkbox options of one directive with identical label text share an
identifier, and two signature items share one exactly when both the role
reference and the label agree. -/
theorem c8_identifier_seed_determinism :
    (∀ s t : String, s = t → makeId s = makeId t) ∧
    (∀ (label : String) (lines : List String) (o1 o2 : OptionEntry),
      o1 ∈ (collectOptions label lines).1 → o2 ∈ (collectOptions label lines).1 →
      o1.label = o2.label → o1.id = o2.id) ∧
    (∀ (rm : RolesMap) (ref lab : String) (sub1 sub2 : Option String),
      (mkSigItem rm ref lab sub1).id = (mkSigItem rm ref lab sub2).id) := by
  refine ⟨fun s t h => h ▸ rfl, ?_, fun rm ref lab s1 s2 => rfl⟩
  intro label lines o1 o2 h1 h2 hlab
  rw [collectOptions_id label lines o1 h1, collectOptions_id label lines o2 h2, hlab]

/-- C8 witness: two same-label options of one checkbox directive share an id. -/
theorem c8_identifier_seed_determinism_witness :
    (⟨makeId ("L" ++ ":" ++ "Yes"), "Yes"⟩ : OptionEntry).id =
    (⟨makeId ("L" ++ ":" ++ "Yes"), "Yes"⟩ : OptionEntry).id :=
  c8_identifier_seed_determinism.2.1 "L" ["  | Yes", "  | Yes"] _ _
    (by
      rw [show (collectOptions "L" ["  | Yes", "  | Yes"]).1 =
        [⟨makeId ("L" ++ ":" ++ "Yes"), "Yes"⟩, ⟨makeId ("L" ++ ":" ++ "Yes"), "Yes"⟩]
        from rfl]
      exact List.mem_cons_self _ _)
    (by
      rw [show (collectOptions "L" ["  | Yes", "  | Yes"]).1 =
        [⟨makeId ("L" ++ ":" ++ "Yes"), "Yes"⟩, ⟨makeId ("L" ++ ":" ++ "Yes"), "Yes"⟩]
        from rfl]
      exact List.mem_cons_of_mem _ (List.mem_cons_self _ _))
    rfl

/-- C9: `@checkbox(buyer) Accept terms` with two indented `| Yes` / `| No`
continuation lines yields one checkbox interactive field with
`required = true`, identifier `hash("checkbox:Accept terms")`, role fallback
`hash("buyer")`, and exactly the options `hash("Accept terms:Yes")` /
`hash("Accept terms:No")`; collection stops at the first non-matching line,
which becomes an ordinary paragraph. -/
theorem c9_checkbox_scenario :
    parseContent [] 10 ["@checkbox(buyer) Accept terms", "  | Yes", "  | No", "after"] =
      some [Node.interactiveField
              ⟨makeId "checkbox:Accept terms", "checkbox", makeId "buyer", "Accept terms",
               true,
               [⟨makeId "Accept terms:Yes", "Yes"⟩, ⟨makeId "Accept terms:No", "No"⟩],
               "", 0, "vertical"⟩,
            Node.paragraph none (some [Node.text "after" none])] := rfl

/-- C10: the placeholder `[ |Label]` still yields an injector node, with
`variableId` trimmed to the empty string, and that id is excluded from the
collected `variableIds` (the collector records only non-empty ids, so the
empty string never occurs in any output). -/
theorem c10_empty_injector_id :
    parseInline "[ |Label]" =
      [Node.injector ⟨"TEXT", "Label", "", none, false, none, none, false, none, none,
        false, none, none, none⟩] ∧
    collectVariableIds [Node.paragraph none (some (parseInline "[ |Label]"))] = [] ∧
    ∀ nodes : List Node, "" ∉ collectVariableIds nodes := by
  refine ⟨rfl, rfl, ?_⟩
  intro nodes h
  exact ((mem_collectVariableIds nodes "").mp h).2 rfl

/-- C10 witness. -/
theorem c10_empty_injector_id_witness :
    "" ∉ collectVariableIds [Node.paragraph none (some (parseInline "[ |Label]"))] :=
  c10_empty_injector_id.2.2 [Node.paragraph none (some (parseInline "[ |Label]"))]

end Docml
